import Mathlib

/-!
Verification of the invoice application (`src/app.py`).

The development shallowly embeds the arithmetic and file-handling logic of
the application:

* Python `float` values are modelled as rationals (`ℚ`); Python's
  `round(x, 2)` (round-half-to-even) is `pyRound2`.
* JSON numeric fields are modelled by `FVal`: a field can be absent
  (`missing`), present but unparseable (`bad`, `float(...)` raises), or a
  number (`num q`).
* The invoice directory is modelled as a pair of finite sets of file names
  (`Store`), with the soft-delete / undo operations as pure state
  transformers.
* Image fitting (`get_rl_image_from_pil`) is embedded over ℚ with the
  reportlab constants `mm = 72/25.4` and A4 width `210*mm`.
-/

namespace InvoiceApp

/-- Round-half-to-even to an integer, as Python's `round` (on an exactly
represented value). -/
def rhe (x : ℚ) : ℤ :=
  let f := ⌊x⌋
  let r := x - f
  if r < 1/2 then f
  else if 1/2 < r then f + 1
  else if 2 ∣ f then f else f + 1

/-- Python's `round(x, 2)`: round half to even at two decimals. -/
def pyRound2 (x : ℚ) : ℚ := (rhe (x * 100) : ℚ) / 100

/-- A rational that is a whole number of cents (exactly two decimals). -/
def isCents (x : ℚ) : Prop := ∃ n : ℤ, x = (n : ℚ) / 100

/-- A numeric JSON field: absent, present but unparseable, or a number. -/
inductive FVal where
  | missing : FVal
  | bad : FVal
  | num (q : ℚ) : FVal
deriving DecidableEq

/-- `float(d.get(key, 0))` with the exception caught and replaced by `0`
(the pattern used for item fields in `make_invoice`, src/app.py:224-231). -/
def FVal.orZero : FVal → ℚ
  | .missing => 0
  | .bad => 0
  | .num q => q

/-- `float(d.get(key, 0.0) or 0.0)` with no exception handler: an
unparseable value raises (src/app.py:249-250). -/
def FVal.toFloat? : FVal → Option ℚ
  | .missing => some 0
  | .bad => none
  | .num q => some q

/-- One entry of the `items` list of the metadata JSON.  `unit` is the
legacy key consulted by the reports view when `unit_price` is absent
(src/app.py:695). -/
structure Item where
  qty : FVal
  unit_price : FVal
  unit : FVal
deriving DecidableEq

/-- The metadata JSON record (the fields the verified routines read). -/
structure Rec where
  invoice_number : Option String
  bill_to_name : String
  bill_to_contact : String
  date : String
  due_date : Option String
  items : List Item
  tax_rate : FVal
  tax_percent : FVal
  discount : FVal
deriving DecidableEq

/-! ### Document totals (`make_invoice`, src/app.py:221-252) -/

/-- `qty = float(it.get('qty', 0))` with exceptions replaced by `0.0`. -/
def lineQty (it : Item) : ℚ := it.qty.orZero

/-- `unit = float(it.get('unit_price', 0.0))` with exceptions replaced by `0.0`. -/
def lineUnit (it : Item) : ℚ := it.unit_price.orZero

/-- `amt = round(qty * unit, 2)` (src/app.py:232). -/
def lineAmount (it : Item) : ℚ := pyRound2 (lineQty it * lineUnit it)

/-- `subtotal += amt` over all items (src/app.py:233). -/
def invoiceSubtotal (items : List Item) : ℚ := (items.map lineAmount).sum

/-- Totals computed while rendering the document (src/app.py:221-252):
line amounts, subtotal, `tax = round(subtotal * (tax_percent/100.0), 2)`,
`total = round(subtotal + tax - discount, 2)`.  `none` models the uncaught
exception raised by `float` on an unparseable `tax_rate` or `discount`. -/
def makeInvoiceTotals (r : Rec) : Option (List ℚ × ℚ × ℚ × ℚ) :=
  let amounts := r.items.map lineAmount
  let subtotal := amounts.sum
  match r.tax_rate.toFloat?, r.discount.toFloat? with
  | some p, some d =>
    let tax := pyRound2 (subtotal * (p / 100))
    let total := pyRound2 (subtotal + tax - d)
    some (amounts, subtotal, tax, total)
  | _, _ => none

/-! ### Reports view (`load_reports_table`, src/app.py:661-704) -/

/-- The contribution of one item to the reports-view subtotal
(src/app.py:692-698): `subtotal += q * u` inside a `try` whose failure
(an unparseable field) skips the item. -/
def reportContribution (it : Item) : ℚ :=
  match it.qty with
  | .bad => 0
  | q =>
    match it.unit_price with
    | .bad => 0
    | .num u => q.orZero * u
    | .missing =>
      match it.unit with
      | .bad => 0
      | .num x => q.orZero * x
      | .missing => 0

/-- Reports-view subtotal: sum of the per-item contributions, with no
per-line rounding (src/app.py:691-698). -/
def reportSubtotal (r : Rec) : ℚ := (r.items.map reportContribution).sum

/-- Tax percent shown by the reports view (src/app.py:682-686):
`data.get("tax_rate")` if not `None`, else `data.get("tax_percent") or 0.0`,
then `float` with exceptions replaced by `0.0`. -/
def reportTaxPct (r : Rec) : ℚ :=
  match r.tax_rate with
  | .num p => p
  | .bad => 0
  | .missing =>
    match r.tax_percent with
    | .num p => p
    | .bad => 0
    | .missing => 0

/-- Discount shown by the reports view (src/app.py:687-690). -/
def reportDiscount (r : Rec) : ℚ :=
  match r.discount with
  | .num d => d
  | _ => 0

/-- `data.get(key) or dflt`: an absent value or an empty string falls back
to the default (Python truthiness). -/
def pyOr (v : Option String) (dflt : String) : String :=
  match v with
  | none => dflt
  | some s => if s = "" then dflt else s

/-- One row of the reports table (src/app.py:701).  Numeric cells are the
values rendered by `f"{x:.2f}"`, i.e. rounded half-to-even at two
decimals. -/
structure Row where
  customer : String
  invoice_no : String
  date : String
  due : String
  contact : String
  tax_pct : ℚ
  discount : ℚ
  subtotal : ℚ
  tax_amt : ℚ
  total : ℚ
deriving DecidableEq

/-- The summary row computed for one parsed metadata record
(src/app.py:677-701); `stem` is the metadata file name without its
extension. -/
def rowOf (stem : String) (m : Rec) : Row :=
  let tax_pct := reportTaxPct m
  let discount := reportDiscount m
  let subtotal := reportSubtotal m
  let tax_amt := subtotal * (tax_pct / 100)
  let total := subtotal + tax_amt - discount
  { customer := m.bill_to_name
    invoice_no := pyOr m.invoice_number stem
    date := m.date
    due := pyOr m.due_date ""
    contact := m.bill_to_contact
    tax_pct := pyRound2 tax_pct
    discount := pyRound2 discount
    subtotal := pyRound2 subtotal
    tax_amt := pyRound2 tax_amt
    total := pyRound2 total }

/-! ### Invoice numbering (`set_next_invoice_number`, src/app.py:762-779) -/

/-- Python `str.isdigit` (ASCII fragment): non-empty and all digits. -/
def pyIsDigit (s : String) : Bool := !s.isEmpty && s.data.all Char.isDigit

/-- `''.join(ch for ch in name if ch.isdigit())` (src/app.py:773). -/
def digitsOf (s : String) : String := ⟨s.data.filter Char.isDigit⟩

/-- `int` on a string of decimal digits. -/
def parseNat (s : String) : ℕ :=
  s.data.foldl (fun a c => 10 * a + (c.toNat - 48)) 0

/-- `set_next_invoice_number` (src/app.py:762-779) applied to the stems of
the existing `.json` file names: fold a running maximum over the keys and
add one. -/
def nextInvoiceNumber (stems : List String) : ℕ :=
  let max_num := stems.foldl
    (fun m name =>
      if pyIsDigit name then Nat.max m (parseNat name)
      else if digitsOf name ≠ "" then Nat.max m (parseNat (digitsOf name))
      else m) 0
  max_num + 1

/-- The candidate an existing key contributes, in the spec's phrasing: a
key of digits parses directly, any other key contributes the integer
parsed from its digit characters when non-empty. -/
def keyCandidate (name : String) : Option ℕ :=
  if pyIsDigit name then some (parseNat name)
  else if digitsOf name ≠ "" then some (parseNat (digitsOf name))
  else none

/-! ### Record store: soft delete and undo (src/app.py:551-658)

The flat invoices directory and its `.trash` subdirectory are modelled as
finite sets of file names.  A file name is always built as `stem ++ ext`,
mirroring the `base + ".pdf"` / `base + ".json"` constructions of the
source; `splitext` mirrors `os.path.splitext` on such simple names. -/

structure Store where
  active : Finset String
  trash : Finset String
deriving DecidableEq

/-- `os.path.splitext` for plain file names: split at the last dot, except
that a sole leading dot starts no extension.  (The source only applies it
to names of the form `stem ++ ".pdf"` / `stem ++ ".json"`.) -/
def splitext (s : String) : String × String :=
  match s.data.reverse.findIdx? (fun c => c == '.') with
  | none => (s, "")
  | some k =>
    let n := s.data.length - 1 - k
    if n = 0 then (s, "")
    else (⟨s.data.take n⟩, ⟨s.data.drop n⟩)

/-- The `while True` collision loop of `move_to_trash`
(src/app.py:567-575): try `base_1`, `base_2`, ... until a free name; fuel
bounds the recursion (any fuel larger than the trash size suffices). -/
def trashDest (t : Finset String) (base ext : String) : ℕ → ℕ → Option String
  | 0, _ => none
  | fuel + 1, i =>
    let cand := base ++ "_" ++ toString i ++ ext
    if cand ∈ t then trashDest t base ext fuel (i + 1) else some cand

/-- `move_to_trash(src)` (src/app.py:563-586): return `none` and leave the
store unchanged if the source is absent; otherwise move it into the trash
set, suffixing the name on collision, and return the destination. -/
def moveToTrash (s : Store) (stem ext : String) : Option String × Store :=
  let src := stem ++ ext
  if src ∈ s.active then
    match (if src ∈ s.trash then
             trashDest s.trash stem ext (s.trash.card + 1) 1
           else some src) with
    | some d => (some d, ⟨s.active.erase src, insert d s.trash⟩)
    | none => (none, s)
  else (none, s)

/-- `delete_selected_receipt` minus the GUI (src/app.py:551-604): move the
record's document and, if present, its metadata file to trash; the pair of
destinations is the undo information. -/
def softDelete (s : Store) (key : String) : (Option String × Option String) × Store :=
  let r1 := moveToTrash s key ".pdf"
  let r2 := if (key ++ ".json") ∈ r1.2.active then moveToTrash r1.2 key ".json"
            else (none, r1.2)
  ((r1.1, r2.1), r2.2)

/-- `self.last_deleted` after a delete (src/app.py:593-596): kept only when
at least one file actually moved. -/
def lastDeletedOf (res : Option String × Option String) :
    Option (Option String × Option String) :=
  if res.1.isSome || res.2.isSome then some res else none

/-- The `while True` collision loop of `restore` (src/app.py:619-627):
try `base_restored_1`, `base_restored_2`, ... -/
def restoredDest (a : Finset String) (base ext : String) : ℕ → ℕ → Option String
  | 0, _ => none
  | fuel + 1, i =>
    let cand := base ++ "_restored_" ++ toString i ++ ext
    if cand ∈ a then restoredDest a base ext fuel (i + 1) else some cand

/-- `restore(src)` inside `undo_delete` (src/app.py:615-637): move a file
from trash back to the active set under its original name, suffixing with
`_restored_N` on collision. -/
def restoreOne (s : Store) (src : String) : Option String × Store :=
  if src ∈ s.trash then
    match (if src ∈ s.active then
             restoredDest s.active (splitext src).1 (splitext src).2
               (s.active.card + 1) 1
           else some src) with
    | some d => (some d, ⟨insert d s.active, s.trash.erase src⟩)
    | none => (none, s)
  else (none, s)

/-- `undo_delete` minus the GUI (src/app.py:606-658): restore the two files
recorded in the undo handle; the second component counts restored files. -/
def undoDelete (s : Store) (h : Option (Option String × Option String)) :
    Store × ℕ :=
  match h with
  | none => (s, 0)
  | some md =>
    let r1 := match md.1 with
      | some pth => restoreOne s pth
      | none => (none, s)
    let r2 := match md.2 with
      | some pth => restoreOne r1.2 pth
      | none => (none, r1.2)
    (r2.2, (if r1.1.isSome then 1 else 0) + (if r2.1.isSome then 1 else 0))

/-- `f.lower().endswith(".pdf")` (src/app.py:490). -/
def isPdfName (f : String) : Bool :=
  (".pdf".data).isSuffixOf (f.data.map Char.toLower)

/-- `load_receipts_list`'s listing (src/app.py:490-491): the `.pdf` entries
of the active directory, sorted descending by name. -/
def listPdfs (s : Store) : List String :=
  ((s.active.filter (fun f => isPdfName f = true)).sort (· ≤ ·)).reverse

/-! ### Saving a record (`save_invoice_fullwidth`, src/app.py:1080-1131) -/

/-- A write performed by the save routine. -/
inductive WriteEv where
  | pdf : WriteEv
  | json : WriteEv
deriving DecidableEq

/-- How the save routine ends. -/
inductive SaveOutcome where
  | pdfError : SaveOutcome
  | jsonWarned : SaveOutcome
  | saved : SaveOutcome
deriving DecidableEq

/-- The write sequence of `save_invoice_fullwidth` (src/app.py:1102-1123):
`make_invoice` writes the document; on failure the routine shows an error
and returns before the metadata is touched; then `json.dump` writes the
metadata; on failure the routine warns that the PDF was saved but the JSON
was not.  The booleans model whether each write raises. -/
def saveInvoiceWrites (pdfOk jsonOk : Bool) : List WriteEv × SaveOutcome :=
  if !pdfOk then ([], .pdfError)
  else if !jsonOk then ([.pdf], .jsonWarned)
  else ([.pdf, .json], .saved)

/-- Apply one write to a disk, viewed as a map from file name to content. -/
def applyWrite (key docC metaC : String) (d : String → Option String) :
    WriteEv → String → Option String
  | .pdf => fun n => if n = key ++ ".pdf" then some docC else d n
  | .json => fun n => if n = key ++ ".json" then some metaC else d n

/-- Run a write sequence against a disk. -/
def runWrites (key docC metaC : String) (d : String → Option String)
    (tr : List WriteEv) : String → Option String :=
  tr.foldl (fun d e => applyWrite key docC metaC d e) d

/-! ### Image fitting (`get_rl_image_from_pil`, src/app.py:111-173) -/

/-- reportlab's `mm` in points: `72 / 25.4`. -/
def mmPt : ℚ := 360 / 127

/-- reportlab's `A4[0]`: 210 mm in points. -/
def a4Width : ℚ := 210 * mmPt

/-- `A4[0] - (15*mm + 15*mm)` (src/app.py:159). -/
def pageAvailable : ℚ := a4Width - (15 * mmPt + 15 * mmPt)

/-- The effective density (src/app.py:129-139): the declared dpi, with
`None`, an invalid value (collapsed into `none` here) and non-positive
values all replaced by `72.0`. -/
def pilDpi (dpi : Option ℚ) : ℚ :=
  match dpi with
  | none => 72
  | some v => if v ≤ 0 then 72 else v

/-- `w_pts = float(w_px) * 72.0 / dpi` (src/app.py:141). -/
def physW (w_px : ℕ) (dpi : Option ℚ) : ℚ := (w_px : ℚ) * 72 / pilDpi dpi

/-- `h_pts = float(h_px) * 72.0 / dpi` (src/app.py:142). -/
def physH (h_px : ℕ) (dpi : Option ℚ) : ℚ := (h_px : ℚ) * 72 / pilDpi dpi

/-- The scaling cascade of `get_rl_image_from_pil` (src/app.py:147-165) on
the physical size `(w, h)` in points: clamp to the width bound, then to the
optional height bound, then to the page-content width, and reject a
non-positive result. -/
def fitCore (w h maxw : ℚ) (maxh : Option ℚ) : Option (ℚ × ℚ) :=
  let asp := if w = 0 then 1 else h / w
  let w1 := if w > maxw then maxw else w
  let h1 := if w > maxw then maxw * asp else h
  let w2 := match maxh with
    | some m => if h1 > m then m / asp else w1
    | none => w1
  let h2 := match maxh with
    | some m => if h1 > m then m else h1
    | none => h1
  let w3 := if w2 > pageAvailable then pageAvailable else w2
  let h3 := if w2 > pageAvailable then pageAvailable * asp else h2
  if w3 ≤ 0 ∨ h3 ≤ 0 then none else some (w3, h3)

/-- `get_rl_image_from_pil` (src/app.py:111-173) reduced to its geometry:
reject a zero-area bitmap, convert caller bounds from mm to points (a
falsy `max_height_mm` means no height cap, src/app.py:145), and run the
scaling cascade.  The returned pair is the rendered width and height in
points. -/
def fit (w_px h_px : ℕ) (dpi : Option ℚ) (max_w_mm : ℚ)
    (max_h_mm : Option ℚ) : Option (ℚ × ℚ) :=
  if w_px = 0 ∨ h_px = 0 then none
  else
    fitCore (physW w_px dpi) (physH h_px dpi) (max_w_mm * mmPt)
      (match max_h_mm with
       | none => none
       | some v => if v = 0 then none else some (v * mmPt))

/-! ### Background trimming (`pil_trim_whitespace`, src/app.py:88-109) -/

/-- An opaque pixel. -/
abbrev RGB := ℕ × ℕ × ℕ

/-- A pixel with an alpha channel. -/
abbrev RGBA := ℕ × ℕ × ℕ × ℕ

/-- A decoded bitmap: either opaque (any mode without transparency,
`convert("RGB")` yields the pixel grid) or carrying transparency
(RGBA / LA / P-with-transparency). -/
inductive PILImage where
  | plain (px : List (List RGB)) : PILImage
  | withAlpha (px : List (List RGBA)) : PILImage
deriving DecidableEq

/-- Compositing one transparent pixel onto the background colour
(`bg.paste(pil, mask=alpha)`, src/app.py:91-96), nearest-integer blend. -/
def blend (bgc : RGB) (p : RGBA) : RGB :=
  ((p.1 * p.2.2.2 + bgc.1 * (255 - p.2.2.2) + 127) / 255,
   (p.2.1 * p.2.2.2 + bgc.2.1 * (255 - p.2.2.2) + 127) / 255,
   (p.2.2.1 * p.2.2.2 + bgc.2.2 * (255 - p.2.2.2) + 127) / 255)

/-- Flatten the input onto a canvas of the background colour
(src/app.py:90-99): composite a transparent image, or plain-convert an
opaque one. -/
def flatten (bgc : RGB) : PILImage → List (List RGB)
  | .plain px => px
  | .withAlpha px => px.map (fun row => row.map (blend bgc))

/-- `pil.convert("RGB")` (src/app.py:107): drop the alpha channel. -/
def convertRGB : PILImage → List (List RGB)
  | .plain px => px
  | .withAlpha px => px.map (fun row => row.map (fun p => (p.1, p.2.1, p.2.2.1)))

/-- `ImageChops.difference(rgb, canvas).getbbox()` (src/app.py:100-101):
the bounding box `(left, upper, right, lower)` of the pixels differing
from the background, or `none` when no pixel differs. -/
def getbbox (bgc : RGB) (px : List (List RGB)) : Option (ℕ × ℕ × ℕ × ℕ) :=
  let rowIdxs := (List.range px.length).filter
    (fun i => (px.getD i []).any (fun p => decide (p ≠ bgc)))
  let colIdxs := (List.range (px.headD []).length).filter
    (fun j => px.any (fun row => decide (row.getD j bgc ≠ bgc)))
  match rowIdxs.min?, rowIdxs.max?, colIdxs.min?, colIdxs.max? with
  | some t, some b, some l, some r => some (l, t, r + 1, b + 1)
  | _, _, _, _ => none

/-- `rgb.crop(bbox)` (src/app.py:103). -/
def crop (bb : ℕ × ℕ × ℕ × ℕ) (px : List (List RGB)) : List (List RGB) :=
  ((px.drop bb.2.1).take (bb.2.2.2 - bb.2.1)).map
    (fun row => (row.drop bb.1).take (bb.2.2.1 - bb.1))

/-- The body of the outer `try` of `pil_trim_whitespace`
(src/app.py:89-104): flatten, diff against the background canvas, crop to
the bounding box when one exists, else return the flattened image. -/
def trimCore (bgc : RGB) (img : PILImage) : List (List RGB) :=
  let rgb := flatten bgc img
  match getbbox bgc rgb with
  | some bb => crop bb rgb
  | none => rgb

/-- `pil_trim_whitespace` (src/app.py:88-109) with its two exception
handlers: `failMain` models a failure anywhere in the main body,
`failConvert` a failure of the fallback `pil.convert("RGB")`; the last
resort returns the input unmodified. -/
def pilTrimWhitespace (failMain failConvert : Bool) (bgc : RGB)
    (img : PILImage) : PILImage :=
  if failMain then
    if failConvert then img else .plain (convertRGB img)
  else .plain (trimCore bgc img)

/-! ### Reports listing (`load_reports_table`, src/app.py:661-704) -/

/-- The scanned metadata files: each file name paired with its parse
result (`none` when `json.load` raises, src/app.py:672-676). -/
abbrev ScanFile := String × Option Rec

/-- `json_files.sort(reverse=True)` (src/app.py:669). -/
def sortByNameDesc (files : List ScanFile) : List ScanFile :=
  (files.mergeSort (fun a b => decide (a.1 ≤ b.1))).reverse

/-- `load_reports_table` reduced to the rows it produces
(src/app.py:661-702): scan in descending name order, skip any file whose
parse fails (`continue`), and compute a summary row for every file that
parses. -/
def loadReportsTable (files : List ScanFile) : List Row :=
  (sortByNameDesc files).filterMap
    (fun f => f.2.map (fun m => rowOf (splitext f.1).1 m))

/-! ### Edit/save key choice (`save_invoice_fullwidth`, src/app.py:1088-1100) -/

/-- `"".join(c for c in base if c.isalnum() or c in "-_")`
(src/app.py:1095). -/
def sanitizeKey (s : String) : String :=
  ⟨s.data.filter (fun c => c.isAlphanum || c == '-' || c == '_')⟩

/-- The file-name base chosen by `save_invoice_fullwidth`
(src/app.py:1090-1097): the loaded record's stem verbatim when editing,
otherwise the sanitized invoice-number field with date-based fallbacks. -/
def chooseSaveBase (editing_base : Option String) (invoice_number : String)
    (today : String) : String :=
  match editing_base with
  | some b => b
  | none =>
    let base := if invoice_number = "" then "inv-" ++ today else invoice_number
    let safe := sanitizeKey base
    if safe = "" then "invoice-" ++ today else safe

/-- What a save produces (src/app.py:1099-1117): the two target paths and
the `invoice_number` field stored in the metadata JSON, which is the
invoice-number entry as the user left it (`build_invoice_data`,
src/app.py:1062). -/
structure SaveOut where
  pdf_path : String
  json_path : String
  meta_invoice_number : String
deriving DecidableEq

/-- The outputs of `save_invoice_fullwidth` as a function of the editing
state and the invoice-number entry. -/
def saveOutputs (editing_base : Option String) (invoice_number : String)
    (today : String) : SaveOut :=
  let safe := chooseSaveBase editing_base invoice_number today
  ⟨safe ++ ".pdf", safe ++ ".json", invoice_number⟩

/-! ## Theorems -/

-- Rounding a whole number of cents is the identity.
theorem rhe_intCast (n : ℤ) : rhe (n : ℚ) = n := by
  simp [rhe]

theorem pyRound2_eq_self {x : ℚ} (h : isCents x) : pyRound2 x = x := by
  obtain ⟨n, rfl⟩ := h
  have h100 : ((n : ℚ) / 100) * 100 = (n : ℚ) := by
    field_simp
  rw [pyRound2, h100, rhe_intCast]

theorem isCents_pyRound2 (x : ℚ) : isCents (pyRound2 x) := ⟨rhe (x * 100), rfl⟩

theorem isCents_add {x y : ℚ} (hx : isCents x) (hy : isCents y) :
    isCents (x + y) := by
  obtain ⟨n, rfl⟩ := hx
  obtain ⟨m, rfl⟩ := hy
  exact ⟨n + m, by push_cast; ring⟩

theorem isCents_sub {x y : ℚ} (hx : isCents x) (hy : isCents y) :
    isCents (x - y) := by
  obtain ⟨n, rfl⟩ := hx
  obtain ⟨m, rfl⟩ := hy
  exact ⟨n - m, by push_cast; ring⟩

theorem isCents_sum (l : List ℚ) (h : ∀ x ∈ l, isCents x) : isCents l.sum := by
  induction l with
  | nil => exact ⟨0, by simp⟩
  | cons a t ih =>
    rw [List.sum_cons]
    exact isCents_add (h a (List.mem_cons_self a t))
      (ih fun x hx => h x (List.mem_cons_of_mem a hx))

theorem isCents_invoiceSubtotal (items : List Item) :
    isCents (invoiceSubtotal items) := by
  refine isCents_sum _ fun x hx => ?_
  obtain ⟨it, -, rfl⟩ := List.mem_map.mp hx
  exact isCents_pyRound2 _

/-- C1 (amended): in `make_invoice` every line amount is
`round(qty * unitPrice, 2)`, the subtotal is the sum of these individually
rounded amounts, the tax is `round(subtotal * taxRatePercent/100, 2)`, and
the total is `round(subtotal + taxAmount - discountAmount, 2)` — which
equals `subtotal + taxAmount - discountAmount` exactly whenever the
discount is a whole number of cents (as here, by hypothesis). -/
theorem make_invoice_totals_spec (r : Rec) (p d : ℚ)
    (hp : r.tax_rate = FVal.num p) (hd : r.discount = FVal.num d)
    (hcents : isCents d) :
    makeInvoiceTotals r =
      some (r.items.map (fun it => pyRound2 (lineQty it * lineUnit it)),
            invoiceSubtotal r.items,
            pyRound2 (invoiceSubtotal r.items * (p / 100)),
            invoiceSubtotal r.items
              + pyRound2 (invoiceSubtotal r.items * (p / 100)) - d) := by
  have htot : pyRound2 ((r.items.map lineAmount).sum
      + pyRound2 ((r.items.map lineAmount).sum * (p / 100)) - d)
      = (r.items.map lineAmount).sum
        + pyRound2 ((r.items.map lineAmount).sum * (p / 100)) - d :=
    pyRound2_eq_self
      (isCents_sub
        (isCents_add (isCents_invoiceSubtotal r.items) (isCents_pyRound2 _))
        hcents)
  simp [makeInvoiceTotals, hp, hd, FVal.toFloat?, invoiceSubtotal,
    lineAmount, htot]

/-- C1 witness: the spec's own example — one line `qty 2, unit price 10`,
tax 6 %, discount 1.00 — yields subtotal 20.00, tax 1.20, total 20.20. -/
theorem make_invoice_totals_spec_witness :
    makeInvoiceTotals
      ⟨some "1", "A", "", "2025-01-01", none,
       [⟨FVal.num 2, FVal.num 10, FVal.missing⟩],
       FVal.num 6, FVal.missing, FVal.num 1⟩
      = some ([20], 20, 6/5, 101/5) := by
  have h := make_invoice_totals_spec
    ⟨some "1", "A", "", "2025-01-01", none,
     [⟨FVal.num 2, FVal.num 10, FVal.missing⟩],
     FVal.num 6, FVal.missing, FVal.num 1⟩
    6 1 rfl rfl ⟨100, by norm_num⟩
  rw [h]
  norm_num [lineQty, lineUnit, FVal.orZero, invoiceSubtotal, lineAmount,
    pyRound2, rhe]

/-- C1 counterexample: with a sub-cent discount of 0.005 on the Widget
invoice the code's total is `round(20 + 1.20 - 0.005, 2) = 21.20`, not the
claim's unrounded `subtotal + taxAmount - discountAmount = 21.195`. -/
theorem make_invoice_total_rounds :
    makeInvoiceTotals
      ⟨some "1", "A", "", "2025-01-01", none,
       [⟨FVal.num 2, FVal.num 10, FVal.missing⟩],
       FVal.num 6, FVal.missing, FVal.num (1/200)⟩
      = some ([20], 20, 6/5, 106/5) ∧
    (106/5 : ℚ) ≠ 20 + 6/5 - 1/200 := by
  constructor
  · norm_num [makeInvoiceTotals, FVal.toFloat?, lineQty, lineUnit,
      FVal.orZero, lineAmount, pyRound2, rhe]
  · norm_num

-- Folding a running maximum equals taking the maximum of the collected
-- candidates.
theorem foldl_max_candidates (l : List String) (a : ℕ) :
    l.foldl
      (fun m name =>
        if pyIsDigit name then Nat.max m (parseNat name)
        else if digitsOf name ≠ "" then Nat.max m (parseNat (digitsOf name))
        else m) a
    = Nat.max a ((l.filterMap keyCandidate).foldr Nat.max 0) := by
  induction l generalizing a with
  | nil => simp
  | cons x t ih =>
    rw [List.foldl_cons, ih, List.filterMap_cons]
    by_cases h1 : pyIsDigit x
    · simp [keyCandidate, h1, Nat.max_assoc]
    · by_cases h2 : digitsOf x ≠ ""
      · simp [keyCandidate, h1, h2, Nat.max_assoc]
      · simp [keyCandidate, h1, h2]

/-- C3: the invoice sequencer returns `1 + max(candidates, default 0)`,
where an all-digits key contributes its value and any other key
contributes the integer parsed from its digit characters when non-empty;
in particular `{"3","07","inv-12","x"} ↦ 13` and `{} ↦ 1`. -/
theorem next_invoice_number_spec (stems : List String) :
    nextInvoiceNumber stems
      = 1 + (stems.filterMap keyCandidate).foldr Nat.max 0 ∧
    nextInvoiceNumber ["3", "07", "inv-12", "x"] = 13 ∧
    nextInvoiceNumber [] = 1 := by
  refine ⟨?_, by decide, by decide⟩
  unfold nextInvoiceNumber
  rw [foldl_max_candidates]
  simp only [Nat.zero_max]
  omega

/-- C10: when a record loaded for editing is saved, the loaded stem is
used verbatim as the storage key for both files — independent of the
invoice-number entry and with no sanitization — while the metadata's
`invoice_number` field records the entry, which may differ from the key. -/
theorem edit_save_uses_base_verbatim (eb n today : String) :
    (saveOutputs (some eb) n today).pdf_path = eb ++ ".pdf" ∧
    (saveOutputs (some eb) n today).json_path = eb ++ ".json" ∧
    (saveOutputs (some eb) n today).meta_invoice_number = n ∧
    chooseSaveBase (some eb) n today = eb ∧
    ((saveOutputs (some "a b") "12" "d").pdf_path = "a b.pdf" ∧
     sanitizeKey "a b" ≠ "a b" ∧
     (saveOutputs (some "a b") "12" "d").meta_invoice_number ≠ "a b") :=
  ⟨rfl, rfl, rfl, rfl, by decide, by decide, by decide⟩

/-- C2 (amended): the reports view recomputes each summary from the
record's own item list, but with no per-line rounding
(`subtotal += q * u`, then tax and total unrounded, each cell formatted to
two decimals).  Whenever every line amount is an exact number of cents and
the exact tax `subtotal * pct/100` is an exact number of cents, the
displayed subtotal, tax and total coincide with the totals computed while
rendering the document. -/
theorem reports_row_matches_document (stem : String) (r : Rec) (p d : ℚ)
    (hp : r.tax_rate = FVal.num p) (hd : r.discount = FVal.num d)
    (hitems : ∀ it ∈ r.items, ∃ q u : ℚ,
      it.qty = FVal.num q ∧ it.unit_price = FVal.num u ∧ isCents (q * u))
    (htax : isCents (reportSubtotal r * (p / 100))) :
    ∀ amounts s t tot, makeInvoiceTotals r = some (amounts, s, t, tot) →
      (rowOf stem r).subtotal = s ∧ (rowOf stem r).tax_amt = t ∧
      (rowOf stem r).total = tot := by
  have hline : ∀ it ∈ r.items,
      reportContribution it = lineAmount it := by
    intro it hit
    obtain ⟨q, u, hq, hu, hc⟩ := hitems it hit
    have h1 : reportContribution it = q * u := by
      simp [reportContribution, hq, hu, FVal.orZero]
    have h2 : lineAmount it = q * u := by
      simp [lineAmount, lineQty, lineUnit, hq, hu, FVal.orZero,
        pyRound2_eq_self hc]
    rw [h1, h2]
  have hsub : reportSubtotal r = invoiceSubtotal r.items := by
    unfold reportSubtotal invoiceSubtotal
    rw [List.map_congr_left hline]
  have hsubc : pyRound2 (invoiceSubtotal r.items) = invoiceSubtotal r.items :=
    pyRound2_eq_self (isCents_invoiceSubtotal r.items)
  have hpct : reportTaxPct r = p := by simp [reportTaxPct, hp]
  have hdisc : reportDiscount r = d := by simp [reportDiscount, hd]
  have htax2 : pyRound2 (invoiceSubtotal r.items * (p / 100))
      = invoiceSubtotal r.items * (p / 100) := by
    rw [← hsub]
    exact pyRound2_eq_self (hsub ▸ htax)
  intro amounts s t tot hmk
  simp only [makeInvoiceTotals, hp, hd, FVal.toFloat?, Option.some.injEq,
    Prod.mk.injEq] at hmk
  obtain ⟨-, h2, h3, h4⟩ := hmk
  subst h2
  subst h3
  subst h4
  refine ⟨?_, ?_, ?_⟩
  · simp only [rowOf, hsub]
    exact hsubc
  · simp only [rowOf, hsub, hpct]
    rfl
  · simp only [rowOf, hsub, hpct, hdisc]
    have hM : (List.map lineAmount r.items).sum = invoiceSubtotal r.items := rfl
    rw [hM, htax2]

/-- C2 witness: for the Widget record (one line `2 × 10.00`, tax 6 %,
discount 1.00) the reports row shows subtotal 20.00, tax 1.20, total
20.20, exactly the document's totals. -/
theorem reports_row_matches_document_witness :
    (rowOf "7" ⟨some "7", "A", "", "2025-01-01", none,
       [⟨FVal.num 2, FVal.num 10, FVal.missing⟩],
       FVal.num 6, FVal.missing, FVal.num 1⟩).subtotal = 20 ∧
    (rowOf "7" ⟨some "7", "A", "", "2025-01-01", none,
       [⟨FVal.num 2, FVal.num 10, FVal.missing⟩],
       FVal.num 6, FVal.missing, FVal.num 1⟩).tax_amt = 6/5 ∧
    (rowOf "7" ⟨some "7", "A", "", "2025-01-01", none,
       [⟨FVal.num 2, FVal.num 10, FVal.missing⟩],
       FVal.num 6, FVal.missing, FVal.num 1⟩).total = 101/5 := by
  refine reports_row_matches_document "7" _ 6 1 rfl rfl ?_ ?_ [20] 20 (6/5)
    (101/5) ?_
  · intro it hit
    simp only [List.mem_singleton] at hit
    subst hit
    exact ⟨2, 10, rfl, rfl, ⟨2000, by norm_num⟩⟩
  · refine ⟨120, ?_⟩
    norm_num [reportSubtotal, reportContribution, FVal.orZero]
  · norm_num [makeInvoiceTotals, FVal.toFloat?, lineAmount, lineQty,
      lineUnit, FVal.orZero, pyRound2, rhe]

/-- C2 counterexample: a record with two lines of `1 × 0.004` shows
subtotal 0.01 in the reports view (0.008 formatted to two decimals), while
the spec's per-line-rounded computation — the one used when rendering the
document — gives subtotal 0.00. -/
theorem reports_row_not_per_line_rounded :
    (rowOf "r" ⟨none, "", "", "", none,
       [⟨FVal.num 1, FVal.num (1/250), FVal.missing⟩,
        ⟨FVal.num 1, FVal.num (1/250), FVal.missing⟩],
       FVal.num 0, FVal.missing, FVal.num 0⟩).subtotal = 1/100 ∧
    makeInvoiceTotals ⟨none, "", "", "", none,
       [⟨FVal.num 1, FVal.num (1/250), FVal.missing⟩,
        ⟨FVal.num 1, FVal.num (1/250), FVal.missing⟩],
       FVal.num 0, FVal.missing, FVal.num 0⟩ = some ([0, 0], 0, 0, 0) ∧
    (1/100 : ℚ) ≠ 0 := by
  refine ⟨?_, ?_, by norm_num⟩
  · norm_num [rowOf, reportSubtotal, reportContribution, FVal.orZero,
      pyRound2, rhe]
  · norm_num [makeInvoiceTotals, FVal.toFloat?, lineAmount, lineQty,
      lineUnit, FVal.orZero, pyRound2, rhe]

-- The two file names of one record never coincide.
theorem pdf_ne_json (key : String) : key ++ ".pdf" ≠ key ++ ".json" := by
  intro h
  have h2 := congrArg String.length h
  simp only [String.length_append] at h2
  exact absurd (Nat.add_left_cancel h2) (by decide)

/-- C5: the save routine writes the document before the metadata; when the
document write fails it aborts with an error before touching the disk (in
particular any pre-existing metadata file is left unchanged); when the
metadata write fails after the document succeeded, the document is on disk
and the user is warned. -/
theorem save_write_order (pdfOk jsonOk : Bool) (key docC metaC : String) :
    (WriteEv.json ∈ (saveInvoiceWrites pdfOk jsonOk).1 →
      (saveInvoiceWrites pdfOk jsonOk).1 = [WriteEv.pdf, WriteEv.json]) ∧
    (pdfOk = false →
      (saveInvoiceWrites pdfOk jsonOk).2 = SaveOutcome.pdfError ∧
      ∀ d : String → Option String, ∀ nm,
        runWrites key docC metaC d (saveInvoiceWrites pdfOk jsonOk).1 nm
          = d nm) ∧
    (pdfOk = true → jsonOk = false →
      (saveInvoiceWrites pdfOk jsonOk).2 = SaveOutcome.jsonWarned ∧
      ∀ d : String → Option String,
        runWrites key docC metaC d (saveInvoiceWrites pdfOk jsonOk).1
          (key ++ ".pdf") = some docC ∧
        runWrites key docC metaC d (saveInvoiceWrites pdfOk jsonOk).1
          (key ++ ".json") = d (key ++ ".json")) ∧
    (pdfOk = true → jsonOk = true →
      (saveInvoiceWrites pdfOk jsonOk).1 = [WriteEv.pdf, WriteEv.json] ∧
      (saveInvoiceWrites pdfOk jsonOk).2 = SaveOutcome.saved) := by
  have hne : key ++ ".json" ≠ key ++ ".pdf" := (pdf_ne_json key).symm
  cases pdfOk <;> cases jsonOk <;>
    simp [saveInvoiceWrites, runWrites, applyWrite, hne]

/-- C5 witness: with the document written and the metadata write failing,
on an empty disk the document file exists afterwards, the metadata file
still does not, and the outcome is the warning. -/
theorem save_write_order_witness :
    (saveInvoiceWrites true false).2 = SaveOutcome.jsonWarned ∧
    runWrites "k" "D" "M" (fun _ => none) (saveInvoiceWrites true false).1
      ("k" ++ ".pdf") = some "D" ∧
    runWrites "k" "D" "M" (fun _ => none) (saveInvoiceWrites true false).1
      ("k" ++ ".json") = none := by
  have h := (save_write_order true false "k" "D" "M").2.2.1 rfl rfl
  exact ⟨h.1, (h.2 (fun _ => none)).1, (h.2 (fun _ => none)).2⟩

/-- C4: soft-deleting a record whose document and metadata files exist and
collide with nothing in the trash, then undoing via the returned handle,
restores both files to the active collection under their original names
and leaves `list()` — the descending listing of `.pdf` names — exactly as
it was before the pair of operations. -/
theorem soft_delete_undo_restores (s : Store) (key : String)
    (hpdf : key ++ ".pdf" ∈ s.active) (hjson : key ++ ".json" ∈ s.active)
    (htp : key ++ ".pdf" ∉ s.trash) (htj : key ++ ".json" ∉ s.trash) :
    (undoDelete (softDelete s key).2 (lastDeletedOf (softDelete s key).1)).1.active
      = s.active ∧
    (undoDelete (softDelete s key).2 (lastDeletedOf (softDelete s key).1)).1.trash
      = s.trash ∧
    listPdfs (undoDelete (softDelete s key).2 (lastDeletedOf (softDelete s key).1)).1
      = listPdfs s ∧
    key ++ ".pdf"
      ∈ (undoDelete (softDelete s key).2 (lastDeletedOf (softDelete s key).1)).1.active ∧
    key ++ ".json"
      ∈ (undoDelete (softDelete s key).2 (lastDeletedOf (softDelete s key).1)).1.active := by
  obtain ⟨A, T⟩ := s
  simp only at hpdf hjson htp htj
  have hne : key ++ ".pdf" ≠ key ++ ".json" := pdf_ne_json key
  have h1 : moveToTrash ⟨A, T⟩ key ".pdf"
      = (some (key ++ ".pdf"),
         ⟨A.erase (key ++ ".pdf"), insert (key ++ ".pdf") T⟩) := by
    simp [moveToTrash, hpdf, htp]
  have hjmem : key ++ ".json" ∈ A.erase (key ++ ".pdf") :=
    Finset.mem_erase.mpr ⟨hne.symm, hjson⟩
  have hjt : key ++ ".json" ∉ insert (key ++ ".pdf") T := by
    simp only [Finset.mem_insert]
    push_neg
    exact ⟨hne.symm, htj⟩
  have h2 : moveToTrash ⟨A.erase (key ++ ".pdf"), insert (key ++ ".pdf") T⟩
      key ".json"
      = (some (key ++ ".json"),
         ⟨(A.erase (key ++ ".pdf")).erase (key ++ ".json"),
          insert (key ++ ".json") (insert (key ++ ".pdf") T)⟩) := by
    simp [moveToTrash, hjmem, hjt]
  have hsd : softDelete ⟨A, T⟩ key
      = ((some (key ++ ".pdf"), some (key ++ ".json")),
         ⟨(A.erase (key ++ ".pdf")).erase (key ++ ".json"),
          insert (key ++ ".json") (insert (key ++ ".pdf") T)⟩) := by
    simp only [softDelete, h1]
    simp [hjmem, h2]
  rw [hsd]
  have hld : lastDeletedOf (some (key ++ ".pdf"), some (key ++ ".json"))
      = some (some (key ++ ".pdf"), some (key ++ ".json")) := rfl
  rw [hld]
  have hpt : key ++ ".pdf"
      ∈ insert (key ++ ".json") (insert (key ++ ".pdf") T) := by simp
  have hpa : key ++ ".pdf"
      ∉ (A.erase (key ++ ".pdf")).erase (key ++ ".json") := by
    simp [Finset.mem_erase]
  have h3 : restoreOne
      ⟨(A.erase (key ++ ".pdf")).erase (key ++ ".json"),
       insert (key ++ ".json") (insert (key ++ ".pdf") T)⟩ (key ++ ".pdf")
      = (some (key ++ ".pdf"),
         ⟨insert (key ++ ".pdf")
            ((A.erase (key ++ ".pdf")).erase (key ++ ".json")),
          (insert (key ++ ".json") (insert (key ++ ".pdf") T)).erase
            (key ++ ".pdf")⟩) := by
    simp [restoreOne, hpt, hpa]
  have hjt2 : key ++ ".json"
      ∈ (insert (key ++ ".json") (insert (key ++ ".pdf") T)).erase
          (key ++ ".pdf") := by
    simp [Finset.mem_erase, hne.symm]
  have hja2 : key ++ ".json"
      ∉ insert (key ++ ".pdf")
          ((A.erase (key ++ ".pdf")).erase (key ++ ".json")) := by
    simp [Finset.mem_insert, Finset.mem_erase, hne.symm]
  have h4 : restoreOne
      ⟨insert (key ++ ".pdf")
         ((A.erase (key ++ ".pdf")).erase (key ++ ".json")),
       (insert (key ++ ".json") (insert (key ++ ".pdf") T)).erase
         (key ++ ".pdf")⟩ (key ++ ".json")
      = (some (key ++ ".json"),
         ⟨insert (key ++ ".json")
            (insert (key ++ ".pdf")
              ((A.erase (key ++ ".pdf")).erase (key ++ ".json"))),
          ((insert (key ++ ".json") (insert (key ++ ".pdf") T)).erase
            (key ++ ".pdf")).erase (key ++ ".json")⟩) := by
    simp [restoreOne, hjt2, hja2]
  have hA : insert (key ++ ".json")
      (insert (key ++ ".pdf")
        ((A.erase (key ++ ".pdf")).erase (key ++ ".json"))) = A := by
    ext x
    simp only [Finset.mem_insert, Finset.mem_erase]
    constructor
    · rintro (rfl | rfl | ⟨-, -, hx⟩)
      · exact hjson
      · exact hpdf
      · exact hx
    · intro hx
      by_cases e1 : x = key ++ ".json"
      · exact Or.inl e1
      by_cases e2 : x = key ++ ".pdf"
      · exact Or.inr (Or.inl e2)
      · exact Or.inr (Or.inr ⟨e1, e2, hx⟩)
  have hT : ((insert (key ++ ".json") (insert (key ++ ".pdf") T)).erase
      (key ++ ".pdf")).erase (key ++ ".json") = T := by
    ext x
    simp only [Finset.mem_erase, Finset.mem_insert]
    constructor
    · rintro ⟨hxj, hxp, (e1 | e2 | hx)⟩
      · exact absurd e1 hxj
      · exact absurd e2 hxp
      · exact hx
    · intro hx
      refine ⟨fun e => htj (e ▸ hx), fun e => htp (e ▸ hx),
        Or.inr (Or.inr hx)⟩
  simp only [undoDelete, h3, h4, hA, hT]
  exact ⟨trivial, trivial, trivial, hpdf, hjson⟩

/-- C4 witness: a store holding exactly the record `1` with an empty
trash; deleting and undoing yields the original active set and listing. -/
theorem soft_delete_undo_restores_witness :
    (undoDelete (softDelete (⟨{"1.pdf", "1.json"}, ∅⟩ : Store) "1").2
        (lastDeletedOf
          (softDelete (⟨{"1.pdf", "1.json"}, ∅⟩ : Store) "1").1)).1.active
      = ({"1.pdf", "1.json"} : Finset String) ∧
    listPdfs (undoDelete (softDelete (⟨{"1.pdf", "1.json"}, ∅⟩ : Store) "1").2
        (lastDeletedOf
          (softDelete (⟨{"1.pdf", "1.json"}, ∅⟩ : Store) "1").1)).1
      = listPdfs (⟨{"1.pdf", "1.json"}, ∅⟩ : Store) := by
  have h := soft_delete_undo_restores (⟨{"1.pdf", "1.json"}, ∅⟩ : Store) "1"
    (by decide) (by decide) (by decide) (by decide)
  exact ⟨h.1, h.2.2.1⟩

-- Inverting the final positivity test of the fitting cascade.
theorem fit_last_step {C : Prop} [Decidable C] {X Y tw th : ℚ}
    (hres : (if C then none else some ((X : ℚ), (Y : ℚ))) = some (tw, th)) :
    tw = X ∧ th = Y := by
  by_cases hc : C
  · rw [if_pos hc] at hres
    exact absurd hres (by simp)
  · rw [if_neg hc] at hres
    simp only [Option.some.injEq, Prod.mk.injEq] at hres
    exact ⟨hres.1.symm, hres.2.symm⟩

-- Bounds delivered by the scaling cascade on a positive physical size.
theorem fitCore_bounds (w h maxw : ℚ) (mh : Option ℚ) (hw : 0 < w)
    (hh : 0 < h) (tw th : ℚ) (hres : fitCore w h maxw mh = some (tw, th)) :
    tw ≤ maxw ∧ tw ≤ pageAvailable ∧ tw ≤ w ∧
    ∀ m, mh = some m → th ≤ m := by
  have hw0 : w ≠ 0 := ne_of_gt hw
  have ha : 0 < h / w := div_pos hh hw
  have hwa : w * (h / w) = h := by field_simp
  rcases mh with _ | m
  · have hnone : ∀ m : ℚ, (none : Option ℚ) = some m → th ≤ m :=
      fun m hm => absurd hm (by simp)
    simp only [fitCore] at hres
    rw [if_neg hw0] at hres
    by_cases c1 : w > maxw
    · simp only [if_pos c1] at hres
      by_cases c3 : maxw > pageAvailable
      · simp only [if_pos c3] at hres
        obtain ⟨rfl, rfl⟩ := fit_last_step hres
        exact ⟨c3.le, le_refl _, (lt_trans c3 c1).le, hnone⟩
      · simp only [if_neg c3] at hres
        obtain ⟨rfl, rfl⟩ := fit_last_step hres
        exact ⟨le_refl _, not_lt.mp c3, c1.le, hnone⟩
    · simp only [if_neg c1] at hres
      by_cases c3 : w > pageAvailable
      · simp only [if_pos c3] at hres
        obtain ⟨rfl, rfl⟩ := fit_last_step hres
        exact ⟨(lt_of_lt_of_le c3 (not_lt.mp c1)).le, le_refl _, c3.le, hnone⟩
      · simp only [if_neg c3] at hres
        obtain ⟨rfl, rfl⟩ := fit_last_step hres
        exact ⟨not_lt.mp c1, not_lt.mp c3, le_refl _, hnone⟩
  · simp only [fitCore] at hres
    rw [if_neg hw0] at hres
    by_cases c1 : w > maxw
    · simp only [if_pos c1] at hres
      by_cases c2 : maxw * (h / w) > m
      · simp only [if_pos c2] at hres
        by_cases c3 : m / (h / w) > pageAvailable
        · simp only [if_pos c3] at hres
          obtain ⟨rfl, rfl⟩ := fit_last_step hres
          have k1 : pageAvailable * (h / w) < m := (lt_div_iff ha).mp c3
          have k2 : pageAvailable < maxw :=
            (mul_lt_mul_right ha).mp (lt_trans k1 c2)
          exact ⟨k2.le, le_refl _, (lt_trans k2 c1).le,
            fun m' hm' => (Option.some.inj hm') ▸ k1.le⟩
        · simp only [if_neg c3] at hres
          obtain ⟨rfl, h6⟩ := fit_last_step hres
          have k1 : m / (h / w) ≤ maxw := (div_le_iff ha).mpr c2.le
          exact ⟨k1, not_lt.mp c3, le_trans k1 c1.le,
            fun m' hm' => (Option.some.inj hm') ▸ h6.le⟩
      · simp only [if_neg c2] at hres
        by_cases c3 : maxw > pageAvailable
        · simp only [if_pos c3] at hres
          obtain ⟨rfl, rfl⟩ := fit_last_step hres
          have k1 : pageAvailable * (h / w) < maxw * (h / w) :=
            mul_lt_mul_of_pos_right c3 ha
          exact ⟨c3.le, le_refl _, (lt_trans c3 c1).le,
            fun m' hm' =>
              (Option.some.inj hm') ▸ (le_trans k1.le (not_lt.mp c2))⟩
        · simp only [if_neg c3] at hres
          obtain ⟨rfl, rfl⟩ := fit_last_step hres
          exact ⟨le_refl _, not_lt.mp c3, c1.le,
            fun m' hm' => (Option.some.inj hm') ▸ not_lt.mp c2⟩
    · simp only [if_neg c1] at hres
      by_cases c2 : h > m
      · simp only [if_pos c2] at hres
        have k3 : m / (h / w) < w := by
          rw [div_lt_iff ha, hwa]
          exact c2
        by_cases c3 : m / (h / w) > pageAvailable
        · simp only [if_pos c3] at hres
          obtain ⟨rfl, rfl⟩ := fit_last_step hres
          have k1 : pageAvailable * (h / w) < m := (lt_div_iff ha).mp c3
          exact ⟨(lt_of_lt_of_le (lt_trans c3 k3) (not_lt.mp c1)).le,
            le_refl _, (lt_trans c3 k3).le,
            fun m' hm' => (Option.some.inj hm') ▸ k1.le⟩
        · simp only [if_neg c3] at hres
          obtain ⟨rfl, h6⟩ := fit_last_step hres
          exact ⟨le_trans k3.le (not_lt.mp c1), not_lt.mp c3, k3.le,
            fun m' hm' => (Option.some.inj hm') ▸ h6.le⟩
      · simp only [if_neg c2] at hres
        by_cases c3 : w > pageAvailable
        · simp only [if_pos c3] at hres
          obtain ⟨rfl, rfl⟩ := fit_last_step hres
          have k4 : pageAvailable * (h / w) < w * (h / w) :=
            mul_lt_mul_of_pos_right c3 ha
          have k5 : pageAvailable * (h / w) < h := k4.trans_eq hwa
          exact ⟨(lt_of_lt_of_le c3 (not_lt.mp c1)).le, le_refl _, c3.le,
            fun m' hm' =>
              (Option.some.inj hm') ▸ (k5.trans_le (not_lt.mp c2)).le⟩
        · simp only [if_neg c3] at hres
          obtain ⟨rfl, rfl⟩ := fit_last_step hres
          exact ⟨not_lt.mp c1, not_lt.mp c3, le_refl _,
            fun m' hm' => (Option.some.inj hm') ▸ not_lt.mp c2⟩

-- The effective density is positive, hence so are the physical sizes.
theorem pilDpi_pos (dpi : Option ℚ) : 0 < pilDpi dpi := by
  rcases dpi with _ | v
  · norm_num [pilDpi]
  · simp only [pilDpi]
    by_cases hv : v ≤ 0
    · rw [if_pos hv]
      norm_num
    · rw [if_neg hv]
      linarith [not_le.mp hv]

theorem physW_pos (w_px : ℕ) (dpi : Option ℚ) (h : w_px ≠ 0) :
    0 < physW w_px dpi := by
  unfold physW
  refine div_pos ?_ (pilDpi_pos dpi)
  have : (0 : ℚ) < (w_px : ℚ) := by exact_mod_cast Nat.pos_of_ne_zero h
  linarith

/-- C6: whenever the image fitter returns dimensions, the width never
exceeds the caller's width bound, never exceeds the physical width (the
image is never scaled up), never exceeds the page-content width
`A4 − 2·15 mm`, and the height never exceeds the height cap whenever a
truthy (non-zero) cap was given. -/
theorem fit_never_exceeds (w_px h_px : ℕ) (dpi : Option ℚ) (mw : ℚ)
    (mh : Option ℚ) (tw th : ℚ)
    (hres : fit w_px h_px dpi mw mh = some (tw, th)) :
    tw ≤ mw * mmPt ∧ tw ≤ pageAvailable ∧ tw ≤ physW w_px dpi ∧
    ∀ v, mh = some v → v ≠ 0 → th ≤ v * mmPt := by
  by_cases hz : w_px = 0 ∨ h_px = 0
  · unfold fit at hres
    rw [if_pos hz] at hres
    exact absurd hres (by simp)
  · push_neg at hz
    have hw : 0 < physW w_px dpi := physW_pos w_px dpi hz.1
    have hh : 0 < physH h_px dpi := by
      unfold physH
      refine div_pos ?_ (pilDpi_pos dpi)
      have : (0 : ℚ) < (h_px : ℚ) := by
        exact_mod_cast Nat.pos_of_ne_zero hz.2
      linarith
    rcases mh with _ | v
    · simp only [fit] at hres
      rw [if_neg (by push_neg; exact hz)] at hres
      obtain ⟨b1, b2, b3, -⟩ := fitCore_bounds _ _ _ _ hw hh tw th hres
      exact ⟨b1, b2, b3, fun v hv => absurd hv (by simp)⟩
    · simp only [fit] at hres
      rw [if_neg (by push_neg; exact hz)] at hres
      by_cases hv0 : v = 0
      · rw [if_pos hv0] at hres
        obtain ⟨b1, b2, b3, -⟩ := fitCore_bounds _ _ _ _ hw hh tw th hres
        refine ⟨b1, b2, b3, fun v' hv' hne => ?_⟩
        rw [Option.some.inj hv'] at hv0
        exact absurd hv0 hne
      · rw [if_neg hv0] at hres
        obtain ⟨b1, b2, b3, b4⟩ := fitCore_bounds _ _ _ _ hw hh tw th hres
        refine ⟨b1, b2, b3, fun v' hv' hne => ?_⟩
        rw [← Option.some.inj hv']
        exact b4 (v * mmPt) rfl

/-- C6 witness: a 1000×1000 px image (no declared density) fitted into
45 mm × 30 mm comes out 30 mm × 30 mm, within the width bound, the page
width and the height cap. -/
theorem fit_never_exceeds_witness :
    (10800/127 : ℚ) ≤ 45 * mmPt ∧ (10800/127 : ℚ) ≤ pageAvailable ∧
    (10800/127 : ℚ) ≤ physW 1000 none ∧
    ∀ v, (some 30 : Option ℚ) = some v → v ≠ 0 →
      (10800/127 : ℚ) ≤ v * mmPt := by
  refine fit_never_exceeds 1000 1000 none 45 (some 30) (10800/127)
    (10800/127) ?_
  norm_num [fit, fitCore, physW, physH, pilDpi, mmPt, pageAvailable, a4Width]

/-- C7 (amended): for inputs with `maxWidth` strictly below the physical
width, no height cap, and `0 < maxWidth ≤ page-content width`, the fitter
returns width exactly `maxWidth` (in points) with the input aspect ratio
preserved exactly: `th · w_px = tw · h_px`.  Without the page-width bound
the property fails (see the counterexample). -/
theorem fit_width_exact (w_px h_px : ℕ) (dpi : Option ℚ) (mw : ℚ)
    (hwpx : w_px ≠ 0) (hhpx : h_px ≠ 0)
    (hlt : mw * mmPt < physW w_px dpi) (hpos : 0 < mw * mmPt)
    (hpage : mw * mmPt ≤ pageAvailable) :
    fit w_px h_px dpi mw none
      = some (mw * mmPt, mw * mmPt * (physH h_px dpi / physW w_px dpi)) ∧
    mw * mmPt * (physH h_px dpi / physW w_px dpi) * (w_px : ℚ)
      = mw * mmPt * (h_px : ℚ) := by
  have hw : 0 < physW w_px dpi := physW_pos w_px dpi hwpx
  have hh : 0 < physH h_px dpi := by
    unfold physH
    refine div_pos ?_ (pilDpi_pos dpi)
    have : (0 : ℚ) < (h_px : ℚ) := by
      exact_mod_cast Nat.pos_of_ne_zero hhpx
    linarith
  have ha : 0 < physH h_px dpi / physW w_px dpi := div_pos hh hw
  constructor
  · unfold fit
    rw [if_neg (by push_neg; exact ⟨hwpx, hhpx⟩)]
    simp only [fitCore]
    rw [if_neg (ne_of_gt hw)]
    simp only [if_pos hlt]
    simp only [if_neg (not_lt.mpr hpage)]
    rw [if_neg (by push_neg; exact ⟨hpos, mul_pos hpos ha⟩)]
  · have hwq : (w_px : ℚ) ≠ 0 := Nat.cast_ne_zero.mpr hwpx
    have hd := ne_of_gt (pilDpi_pos dpi)
    unfold physH physW
    field_simp
    ring

/-- C7 witness: a 1000×500 px image (72 dpi) with a 45 mm width bound and
no height cap comes out exactly 45 mm wide with the 2:1 aspect ratio
preserved. -/
theorem fit_width_exact_witness :
    fit 1000 500 none 45 none
      = some (45 * mmPt, 45 * mmPt * (physH 500 none / physW 1000 none)) ∧
    45 * mmPt * (physH 500 none / physW 1000 none) * ((1000 : ℕ) : ℚ)
      = 45 * mmPt * ((500 : ℕ) : ℚ) := by
  refine fit_width_exact 1000 500 none 45 (by norm_num) (by norm_num) ?_ ?_ ?_
  · norm_num [physW, pilDpi, mmPt]
  · norm_num [mmPt]
  · norm_num [pageAvailable, a4Width, mmPt]

/-- C7 counterexample: a 10000×5000 px image with `maxWidth = 200` mm
(which exceeds the 180 mm page-content width) and physical width
10000 pt > 200 mm: the fitter returns the page-content width
`64800/127 ≈ 510.2` pt, not `200·mm = 72000/127 ≈ 566.9` pt, so the
returned width is not `maxWidth` even approximately. -/
theorem fit_width_not_maxw :
    fit 10000 5000 none 200 none = some (64800/127, 32400/127) ∧
    (64800/127 : ℚ) ≠ 200 * mmPt ∧ (64800/127 : ℚ) < 200 * mmPt - 50 := by
  refine ⟨?_, by norm_num [mmPt], by norm_num [mmPt]⟩
  norm_num [fit, fitCore, physW, physH, pilDpi, mmPt, pageAvailable, a4Width]

/-- C8: the trimming routine never raises — every run returns either the
trimmed image, the fallback plain conversion, or the original input — and
on an image that differs nowhere from the background canvas it returns the
full flattened image uncropped. -/
theorem trim_never_raises :
    (∀ (fm fc : Bool) (bgc : RGB) (img : PILImage),
      pilTrimWhitespace fm fc bgc img = PILImage.plain (trimCore bgc img) ∨
      pilTrimWhitespace fm fc bgc img = PILImage.plain (convertRGB img) ∨
      pilTrimWhitespace fm fc bgc img = img) ∧
    (∀ (bgc : RGB) (img : PILImage),
      (∀ row ∈ flatten bgc img, ∀ p ∈ row, p = bgc) →
      pilTrimWhitespace false false bgc img
        = PILImage.plain (flatten bgc img)) := by
  constructor
  · intro fm fc bgc img
    cases fm <;> cases fc <;> simp [pilTrimWhitespace]
  · intro bgc img hbg
    have hrows : (List.range (flatten bgc img).length).filter
        (fun i => ((flatten bgc img).getD i []).any
          (fun p => decide (p ≠ bgc))) = [] := by
      rw [List.filter_eq_nil_iff]
      intro i hi
      simp only [List.mem_range] at hi
      rw [List.getD_eq_getElem?_getD, List.getElem?_eq_getElem hi]
      simp only [Option.getD_some, List.any_eq_true, decide_eq_true_eq,
        not_exists, not_and, not_not]
      intro p hp
      exact hbg _ (List.getElem_mem hi) p hp
    have hbox : getbbox bgc (flatten bgc img) = none := by
      simp only [getbbox]
      rw [hrows]
      simp
    simp [pilTrimWhitespace, trimCore, hbox]

/-- C8 witness: trimming a 1×1 all-white image against a white background
raises nothing and returns the image whole. -/
theorem trim_never_raises_witness :
    pilTrimWhitespace false false (255, 255, 255)
      (PILImage.plain [[(255, 255, 255)]])
      = PILImage.plain
          (flatten (255, 255, 255) (PILImage.plain [[(255, 255, 255)]])) := by
  refine trim_never_raises.2 (255, 255, 255)
    (PILImage.plain [[(255, 255, 255)]]) ?_
  decide

/-- C9: the reports listing produces exactly the rows of the parseable
metadata files — the output is unchanged (up to the descending name order)
when the unparseable files are removed, with no error reported — and every
metadata file that parses contributes its summary row. -/
theorem load_reports_skips_unparseable (files : List ScanFile) :
    (loadReportsTable files).Perm
      (loadReportsTable (files.filter (fun f => f.2.isSome))) ∧
    ∀ name m, (name, some m) ∈ files →
      rowOf (splitext name).1 m ∈ loadReportsTable files := by
  have hperm1 : ∀ l : List ScanFile, (sortByNameDesc l).Perm l := by
    intro l
    unfold sortByNameDesc
    exact (List.reverse_perm _).trans (List.mergeSort_perm l _)
  have hskip : ∀ l : List ScanFile,
      l.filterMap (fun f => f.2.map (fun m => rowOf (splitext f.1).1 m))
        = (l.filter (fun f => f.2.isSome)).filterMap
            (fun f => f.2.map (fun m => rowOf (splitext f.1).1 m)) := by
    intro l
    induction l with
    | nil => rfl
    | cons a t ih =>
      rcases a with ⟨name, _ | m⟩
      · simpa [List.filterMap_cons, List.filter_cons] using ih
      · simpa [List.filterMap_cons, List.filter_cons] using ih
  constructor
  · have h1 : (loadReportsTable files).Perm
        (files.filterMap
          (fun f => f.2.map (fun m => rowOf (splitext f.1).1 m))) :=
      (hperm1 files).filterMap _
    refine h1.trans ?_
    rw [hskip files]
    exact ((hperm1 _).filterMap _).symm
  · intro name m hmem
    unfold loadReportsTable
    rw [List.mem_filterMap]
    exact ⟨(name, some m), ((hperm1 files).mem_iff).mpr hmem, rfl⟩

/-- C9 witness: with one parseable file and one corrupt file, the
parseable file's row is produced. -/
theorem load_reports_skips_unparseable_witness :
    rowOf (splitext "a.json").1
      ⟨some "7", "A", "", "", none, [], FVal.num 0, FVal.missing, FVal.num 0⟩
      ∈ loadReportsTable
        [("a.json",
          some ⟨some "7", "A", "", "", none, [], FVal.num 0, FVal.missing,
            FVal.num 0⟩),
         ("bad.json", none)] :=
  (load_reports_skips_unparseable
    [("a.json",
      some ⟨some "7", "A", "", "", none, [], FVal.num 0, FVal.missing,
        FVal.num 0⟩),
     ("bad.json", none)]).2 "a.json" _ (List.mem_cons_self _ _)

end InvoiceApp
